import Mathlib

/-!
Verification of the single-flight memoising cache in `cache.py`
(`Shared-Bot-Utilities`).  The Python source is shallowly embedded:

* Python objects, as far as `_true_repr` can observe them, become the
  structure `PyObj` (whether the class overrides `__repr__`, the custom
  `repr` text, the class's module and name, and the object's address).
* The backing `dict`s become association lists `List (String × β)` with
  Python-`dict` semantics (`dictSet`, `dictDelete`, `lookupKey`);
  insertion order is preserved and keys are unique in every state the
  code can build.
* `time.monotonic()` results and the ttl become explicit rational
  parameters (`now : ℚ`), threaded where the Python reads the clock.
* `asyncio.Task` handles become natural-number task ids; a ghost
  counter `execs` counts how many producer executions were started and
  ghost counters `hits`/`misses` record the lookup history (the Python
  `dict` tracks neither; `_stats` for the raw and timed strategies
  ignores them, which is exactly what is proved about it).
-/

set_option autoImplicit false

namespace BotCache

/-- A Python object as observed by `_true_repr` (src/cache.py 114-117):
whether its class overrides `__repr__`, the text `repr(o)` produces when
it does, the class's `__module__` and `__name__`, and the object's
address (`id(o)`), which distinguishes instances. -/
structure PyObj where
  hasCustomRepr : Bool
  customRepr : String
  clsModule : String
  clsName : String
  addr : Nat
  deriving DecidableEq, Repr

/-- `repr(o)` for an object whose class leaves `__repr__` at
`object.__repr__`: Python renders `<module.Class object at 0x...>`, the
address included.  This is the address/identity-based representation;
`_true_repr` deliberately does not use it. -/
def defaultObjectRepr (o : PyObj) : String :=
  "<" ++ o.clsModule ++ "." ++ o.clsName ++ " object at " ++ toString o.addr ++ ">"

/-- `_true_repr` (src/cache.py 114-117): when the class does not override
`__repr__`, the key component is `<module.ClassName>` — class data only,
no address; otherwise it is `repr(o)`. -/
def true_repr (o : PyObj) : String :=
  if o.hasCustomRepr then o.customRepr
  else "<" ++ o.clsModule ++ "." ++ o.clsName ++ ">"

/-- `repr` of a Python `str` (quote-free, escape-free contents): the text
wrapped in single quotes.  `_make_key` applies `_true_repr` to keyword
names, which are `str`s, and `str` overrides `__repr__`. -/
def strRepr (s : String) : String := "\x27" ++ s ++ "\x27"

/-- The hard-coded bypass set of `_make_key` (src/cache.py 127-128). -/
def ignoredKwargNames : List String := ["connection", "pool"]

/-- The component list `key` built by `_make_key` (src/cache.py 119-130):
the function's qualified name, then `_true_repr` of each positional
argument, then — unless `ignore_kwargs` — for each keyword pair whose
name is not in the bypass set, the `_true_repr` of the name and of the
value, in call order. -/
def keyComponents (funcModule funcName : String) (ignoreKwargs : Bool)
    (args : List PyObj) (kwargs : List (String × PyObj)) : List String :=
  let base := [funcModule ++ "." ++ funcName] ++ args.map true_repr
  if ignoreKwargs then base
  else
    base ++ (kwargs.filter (fun kv => !(ignoredKwargNames.contains kv.1))).flatMap
      (fun kv => [strRepr kv.1, true_repr kv.2])

/-- `_make_key` (src/cache.py 111-132): the components joined with `:`. -/
def make_key (funcModule funcName : String) (ignoreKwargs : Bool)
    (args : List PyObj) (kwargs : List (String × PyObj)) : String :=
  String.intercalate ":" (keyComponents funcModule funcName ignoreKwargs args kwargs)

/-- First-match lookup in an association list: Python `dict` indexing
(keys are unique in every reachable state, so first-match is exact). -/
def lookupKey {β : Type} : List (String × β) → String → Option β
  | [], _ => none
  | p :: rest, k => if p.1 = k then some p.2 else lookupKey rest k

/-- Python `dict.__setitem__`: update in place when the key is present
(insertion order preserved), append otherwise. -/
def dictSet {β : Type} (t : List (String × β)) (k : String) (v : β) : List (String × β) :=
  if t.any (fun p => decide (p.1 = k)) then
    t.map (fun p => if p.1 = k then (k, v) else p)
  else t ++ [(k, v)]

/-- Python `dict.__delitem__` on a unique-keyed table (a no-op when the
key is absent; the callers below check presence first or swallow
`KeyError`). -/
def dictDelete {β : Type} (t : List (String × β)) (k : String) : List (String × β) :=
  t.filter (fun p => decide (p.1 ≠ k))

/-- `ExpiringCache` (src/cache.py 46-80): a `dict` whose stored values are
`(value, insertedAt)` pairs, plus the ttl fixed at construction
(`__init__`, lines 47-49, performs no validation of `seconds`).
Timestamps are rationals; every operation that reads `time.monotonic()`
takes the corresponding instant `now` explicitly. -/
structure ExpiringCache (α : Type) where
  ttl : ℚ
  table : List (String × (α × ℚ))

/-- `ExpiringCache.__init__` (src/cache.py 47-49): record the ttl, start
from an empty dict.  Any `seconds`, positive or not, is accepted. -/
def ExpiringCache.init (α : Type) (seconds : ℚ) : ExpiringCache α :=
  ⟨seconds, []⟩

/-- The `to_remove` comprehension of `__verify_cache_integrity`
(src/cache.py 54): the keys of the entries with `now > insertedAt + ttl`. -/
def expiredKeys {α : Type} (c : ExpiringCache α) (now : ℚ) : List String :=
  (c.table.filter (fun e => decide (now > e.2.2 + c.ttl))).map (fun e => e.1)

/-- `__verify_cache_integrity` (src/cache.py 51-56): collect the expired
keys, then delete each from the dict. -/
def verifyCacheIntegrity {α : Type} (c : ExpiringCache α) (now : ℚ) : ExpiringCache α :=
  ⟨c.ttl, (expiredKeys c now).foldl (fun t k => dictDelete t k) c.table⟩

/-- `ExpiringCache.__contains__` (src/cache.py 58-60): purge, then test
membership.  The purge mutates `self`; the post-state is returned. -/
def ExpiringCache.containsKey {α : Type} (c : ExpiringCache α) (now : ℚ)
    (k : String) : Bool × ExpiringCache α :=
  let c2 := verifyCacheIntegrity c now
  (c2.table.any (fun p => decide (p.1 = k)), c2)

/-- `ExpiringCache.__getitem__` (src/cache.py 62-65): purge, then index
and drop the timestamp; a `KeyError` becomes `none`. -/
def ExpiringCache.getItem {α : Type} (c : ExpiringCache α) (now : ℚ)
    (k : String) : Option α × ExpiringCache α :=
  let c2 := verifyCacheIntegrity c now
  ((lookupKey c2.table k).map (fun vt => vt.1), c2)

/-- `ExpiringCache.get` (src/cache.py 67-71): plain `dict.get` with
default `None` — it neither purges nor consults the clock, and returns
the stored value (sans timestamp) whenever the key is present, expired
or not. -/
def ExpiringCache.get {α : Type} (c : ExpiringCache α) (k : String) : Option α :=
  (lookupKey c.table k).map (fun vt => vt.1)

/-- `ExpiringCache.__setitem__` (src/cache.py 73-74): store
`(value, time.monotonic())` under the key.  No purge happens here. -/
def ExpiringCache.setItem {α : Type} (c : ExpiringCache α) (now : ℚ)
    (k : String) (v : α) : ExpiringCache α :=
  ⟨c.ttl, dictSet c.table k (v, now)⟩

/-- The default `maxsize` of the `cache` decorator (src/cache.py 90). -/
def cacheDefaultMaxsize : Nat := 128

/-- The `Strategy.timed` branch of `decorator` (src/cache.py 105-106):
the single `maxsize` parameter is passed to `ExpiringCache` as the ttl
in seconds. -/
def timedCacheInit (α : Type) (maxsize : ℚ) : ExpiringCache α :=
  ExpiringCache.init α maxsize

/-- State of a `cache()`-wrapped function under the raw (plain `dict`)
strategy.  `cache` is the key → task mapping (`internal_cache`), tasks
being numbered by creation order with `nextHandle` the next fresh id;
`execs` counts producer executions started by `asyncio.create_task`.
`hits`/`misses` are ghost history counters: the plain `dict` tracks
nothing, and nothing below reads them back. -/
structure SFState where
  cache : List (String × Nat)
  nextHandle : Nat
  execs : Nat
  hits : Nat
  misses : Nat
  deriving DecidableEq, Repr

/-- The freshly decorated function: empty mapping, no producer runs. -/
def SFState.empty : SFState := ⟨[], 0, 0, 0, 0⟩

/-- The body of `wrapper` (src/cache.py 136-143) for an already-derived
key: try the mapping; on `KeyError` create the producer task, store it
under the key, and return it; otherwise return the stored task
untouched. -/
def invokeKey (st : SFState) (key : String) : Nat × SFState :=
  match lookupKey st.cache key with
  | some t => (t, { st with hits := st.hits + 1 })
  | none =>
      (st.nextHandle,
        { cache := dictSet st.cache key st.nextHandle
          nextHandle := st.nextHandle + 1
          execs := st.execs + 1
          hits := st.hits
          misses := st.misses + 1 })

/-- `wrapper` (src/cache.py 134-143): derive the key with `_make_key`,
then coalesce on it. -/
def invoke (funcModule funcName : String) (ignoreKwargs : Bool) (st : SFState)
    (args : List PyObj) (kwargs : List (String × PyObj)) : Nat × SFState :=
  invokeKey st (make_key funcModule funcName ignoreKwargs args kwargs)

/-- `n` successive calls of `wrapper` with one identical argument list,
no eviction in between; the returned handles are collected in order. -/
def invokeRepeat (funcModule funcName : String) (ignoreKwargs : Bool) (st : SFState)
    (args : List PyObj) (kwargs : List (String × PyObj)) : Nat → List Nat × SFState
  | 0 => ([], st)
  | Nat.succ n =>
      let r := invoke funcModule funcName ignoreKwargs st args kwargs
      let rest := invokeRepeat funcModule funcName ignoreKwargs r.2 args kwargs n
      (r.1 :: rest.1, rest.2)

/-- `_invalidate` (src/cache.py 145-151): delete the entry under the key
`_make_key` derives; report whether one was there (`KeyError` means
`False`). -/
def invalidate (funcModule funcName : String) (ignoreKwargs : Bool) (st : SFState)
    (args : List PyObj) (kwargs : List (String × PyObj)) : Bool × SFState :=
  let key := make_key funcModule funcName ignoreKwargs args kwargs
  match lookupKey st.cache key with
  | some _ => (true, { st with cache := dictDelete st.cache key })
  | none => (false, st)

/-- Python's substring test `needle in hay` on the underlying character
lists: some tail of the haystack starts with the needle. -/
def isSubList (needle : List Char) : List Char → Bool
  | [] => needle.isEmpty
  | c :: rest => needle.isPrefixOf (c :: rest) || isSubList needle rest

/-- Python's `sub in hay` for strings. -/
def containsSubstr (hay sub : String) : Bool :=
  isSubList sub.data hay.data

/-- `_invalidate_containing` (src/cache.py 153-159): list the stored keys
that contain the given substring, then delete each (`KeyError` is
swallowed). -/
def invalidateContaining (st : SFState) (key : String) : SFState :=
  let toRemove := ((st.cache.map (fun p => p.1)).filter
    (fun k => containsSubstr k key))
  { st with cache := toRemove.foldl (fun t k => dictDelete t k) st.cache }

/-- `_stats` for `Strategy.raw` (src/cache.py 102-103): the constant
`(0, 0)`, whatever happened to the state. -/
def statsRaw (_ : SFState) : Nat × Nat := (0, 0)

/-- `_stats` for `Strategy.timed` (src/cache.py 108-109): the constant
`(0, 0)`, whatever the cache holds or has seen. -/
def statsTimed {α : Type} (_ : ExpiringCache α) : Nat × Nat := (0, 0)

/-- The third-party `lru.LRU` table backing `Strategy.lru` is not part of
this repository; all `get_stats` needs from it is the pair of cumulative
hit/miss counters it maintains, so only those are modelled. -/
structure LRUTable where
  hits : Nat
  misses : Nat

/-- `_stats = internal_cache.get_stats` for `Strategy.lru`
(src/cache.py 98): delegation to the underlying table's counters. -/
def statsLru (t : LRUTable) : Nat × Nat := (t.hits, t.misses)

/-- A fresh instance of a class `m.C` that does not override `__repr__`,
at address 1. -/
def objA : PyObj := ⟨false, "", "m", "C", 1⟩

/-- A second, distinct fresh instance of the same class, at address 2. -/
def objB : PyObj := ⟨false, "", "m", "C", 2⟩

/-- A connection-like object with custom representation `<Conn A>`,
to be bound to the name `conn`. -/
def connA : PyObj := ⟨true, "<Conn A>", "m", "Conn", 3⟩

/-- A different connection-like object, custom representation `<Conn B>`. -/
def connB : PyObj := ⟨true, "<Conn B>", "m", "Conn", 4⟩

/-- The Python `int` `1`, whose custom representation is `1`. -/
def intOne : PyObj := ⟨true, "1", "builtins", "int", 5⟩

/-- Repeated `__setitem__` of the value `v` under each key in turn, all
at the instant `now`: the growth experiment for the timed strategy. -/
def insertAll {α : Type} (c : ExpiringCache α) (now : ℚ) (v : α) :
    List String → ExpiringCache α
  | [] => c
  | k :: ks => insertAll (c.setItem now k v) now v ks

theorem lookupKey_eq_none_iff {β : Type} (t : List (String × β)) (k : String) :
    lookupKey t k = none ↔ ∀ p ∈ t, p.1 ≠ k := by
  induction t with
  | nil => simp [lookupKey]
  | cons p rest ih =>
      by_cases h : p.1 = k <;> simp [lookupKey, h, ih]

theorem any_fst_eq_false_of_lookup_none {β : Type} (t : List (String × β)) (k : String)
    (h : lookupKey t k = none) : t.any (fun p => decide (p.1 = k)) = false := by
  rw [lookupKey_eq_none_iff] at h
  simp only [List.any_eq_false, decide_eq_true_eq]
  exact h

theorem dictSet_of_lookup_none {β : Type} (t : List (String × β)) (k : String) (v : β)
    (h : lookupKey t k = none) : dictSet t k v = t ++ [(k, v)] := by
  simp [dictSet, any_fst_eq_false_of_lookup_none t k h]

theorem lookupKey_append {β : Type} (t s : List (String × β)) (k : String)
    (h : lookupKey t k = none) : lookupKey (t ++ s) k = lookupKey s k := by
  induction t with
  | nil => simp
  | cons p rest ih =>
      by_cases hp : p.1 = k
      · simp [lookupKey, hp] at h
      · simp only [lookupKey, hp, if_false, List.cons_append] at h ⊢
        exact ih h

theorem lookupKey_dictSet_self {β : Type} (t : List (String × β)) (k : String) (v : β) :
    lookupKey (dictSet t k v) k = some v := by
  unfold dictSet
  by_cases h : t.any (fun p => decide (p.1 = k)) = true
  · simp only [h, if_true]
    induction t with
    | nil => simp at h
    | cons p rest ih =>
        by_cases hp : p.1 = k
        · simp [lookupKey, hp]
        · simp only [List.any_cons, Bool.or_eq_true, decide_eq_true_eq, hp,
            false_or] at h
          simpa [lookupKey, hp] using ih h
  · simp only [h]
    rw [if_neg (by simp at h; simp [h])]
    have hnone : lookupKey t k = none := by
      rw [lookupKey_eq_none_iff]
      simp only [List.any_eq_true, decide_eq_true_eq] at h
      push_neg at h
      exact h
    rw [lookupKey_append t _ k hnone]
    simp [lookupKey]

theorem lookupKey_dictDelete_self {β : Type} (t : List (String × β)) (k : String) :
    lookupKey (dictDelete t k) k = none := by
  rw [lookupKey_eq_none_iff]
  intro p hp
  have h2 := List.of_mem_filter hp
  simp at h2
  exact h2

theorem lookupKey_dictDelete_other {β : Type} (t : List (String × β)) (k k2 : String)
    (h : k2 ≠ k) : lookupKey (dictDelete t k) k2 = lookupKey t k2 := by
  have hk : ¬ k = k2 := fun hh => h hh.symm
  induction t with
  | nil => simp [dictDelete]
  | cons p rest ih =>
      simp only [dictDelete, List.filter_cons, decide_not] at ih ⊢
      by_cases hp : p.1 = k
      · have hp2 : ¬ p.1 = k2 := by rw [hp]; exact hk
        simp [hp, hp2, lookupKey, ih, hk]
      · by_cases hq : p.1 = k2 <;> simp [hp, hq, lookupKey, ih, h]

theorem dictDelete_of_lookup_none {β : Type} (t : List (String × β)) (k : String)
    (h : lookupKey t k = none) : dictDelete t k = t := by
  rw [lookupKey_eq_none_iff] at h
  unfold dictDelete
  rw [List.filter_eq_self]
  intro p hp
  simpa using h p hp

theorem foldl_dictDelete_eq_filter {β : Type} (ks : List String) (t : List (String × β)) :
    ks.foldl (fun t2 k => dictDelete t2 k) t
      = t.filter (fun p => decide (p.1 ∉ ks)) := by
  induction ks generalizing t with
  | nil => simp
  | cons k ks ih =>
      rw [List.foldl_cons, ih, dictDelete, List.filter_filter]
      apply List.filter_congr
      intro p _
      simp [List.mem_cons, not_or, Bool.and_comm]

theorem invokeKey_of_hit (st : SFState) (key : String) (t : Nat)
    (h : lookupKey st.cache key = some t) :
    invokeKey st key = (t, { st with hits := st.hits + 1 }) := by
  simp [invokeKey, h]

theorem invokeKey_of_miss (st : SFState) (key : String)
    (h : lookupKey st.cache key = none) :
    invokeKey st key
      = (st.nextHandle,
          { cache := dictSet st.cache key st.nextHandle
            nextHandle := st.nextHandle + 1
            execs := st.execs + 1
            hits := st.hits
            misses := st.misses + 1 }) := by
  simp [invokeKey, h]

theorem invokeRepeat_of_hit (fm fn : String) (ik : Bool)
    (args : List PyObj) (kwargs : List (String × PyObj)) (t : Nat) :
    ∀ (n : Nat) (st : SFState),
      lookupKey st.cache (make_key fm fn ik args kwargs) = some t →
      invokeRepeat fm fn ik st args kwargs n
        = (List.replicate n t, { st with hits := st.hits + n }) := by
  intro n
  induction n with
  | zero => intro st h; simp [invokeRepeat]
  | succ n ih =>
      intro st h
      simp only [invokeRepeat, invoke, invokeKey_of_hit st _ t h]
      rw [ih { st with hits := st.hits + 1 } h]
      simp [List.replicate_succ, Nat.add_assoc, Nat.add_comm 1 n]

/-- C1: single-flight coalescing of `wrapper`.  When the backing mapping
holds an entry for the derived key, `invoke` returns that entry's handle,
starts no producer execution and leaves the mapping unchanged.  When it
holds none, `invoke` stores the new handle under the key (so the very
next lookup already sees it) and counts one producer execution.  K ≥ 1
repeated calls with the same argument list from a key-less state start
exactly one producer execution, and all K callers receive the same
handle. -/
theorem invoke_single_flight (fm fn : String) (ik : Bool) (st : SFState)
    (args : List PyObj) (kwargs : List (String × PyObj)) :
    (∀ t, lookupKey st.cache (make_key fm fn ik args kwargs) = some t →
      (invoke fm fn ik st args kwargs).1 = t
        ∧ (invoke fm fn ik st args kwargs).2.cache = st.cache
        ∧ (invoke fm fn ik st args kwargs).2.execs = st.execs)
  ∧ (lookupKey st.cache (make_key fm fn ik args kwargs) = none →
      lookupKey (invoke fm fn ik st args kwargs).2.cache (make_key fm fn ik args kwargs)
          = some (invoke fm fn ik st args kwargs).1
        ∧ (invoke fm fn ik st args kwargs).2.execs = st.execs + 1)
  ∧ (∀ K, lookupKey st.cache (make_key fm fn ik args kwargs) = none → 1 ≤ K →
      (invokeRepeat fm fn ik st args kwargs K).2.execs = st.execs + 1
        ∧ (invokeRepeat fm fn ik st args kwargs K).1
            = List.replicate K st.nextHandle) := by
  refine ⟨?_, ?_, ?_⟩
  · intro t h
    simp [invoke, invokeKey_of_hit st _ t h]
  · intro h
    simp [invoke, invokeKey_of_miss st _ h, lookupKey_dictSet_self]
  · intro K h hK
    obtain ⟨n, rfl⟩ : ∃ n, K = n + 1 := ⟨K - 1, by omega⟩
    have hmiss := invokeKey_of_miss st _ h
    have hstored :
        lookupKey (dictSet st.cache (make_key fm fn ik args kwargs) st.nextHandle)
          (make_key fm fn ik args kwargs) = some st.nextHandle :=
      lookupKey_dictSet_self _ _ _
    simp only [invokeRepeat, invoke, hmiss]
    rw [invokeRepeat_of_hit fm fn ik args kwargs st.nextHandle n _ hstored]
    simp [List.replicate_succ]

/-- C1 witness: from the empty state, a second call with the same (empty)
argument list is a hit returning handle `0`, and three successive calls
start exactly one producer execution and all receive handle `0`. -/
theorem invoke_single_flight_witness :
    (invoke "m" "f" false (invoke "m" "f" false SFState.empty [] []).2 [] []).1 = 0
  ∧ (invokeRepeat "m" "f" false SFState.empty [] [] 3).2.execs = SFState.empty.execs + 1
  ∧ (invokeRepeat "m" "f" false SFState.empty [] [] 3).1
      = List.replicate 3 SFState.empty.nextHandle := by
  refine ⟨?_, ?_, ?_⟩
  · exact ((invoke_single_flight "m" "f" false
      (invoke "m" "f" false SFState.empty [] []).2 [] []).1 0 (by decide)).1
  · exact ((invoke_single_flight "m" "f" false SFState.empty [] []).2.2 3 rfl
      (by decide)).1
  · exact ((invoke_single_flight "m" "f" false SFState.empty [] []).2.2 3 rfl
      (by decide)).2

/-- C6: `_invalidate` derives the key exactly as `wrapper` does, reports
whether an entry was present (no error either way), ends with that key
absent and the mapping otherwise untouched, and neither cancels nor
alters any started producer execution (`execs`, `nextHandle` and every
other binding are unchanged, and the removed handle itself is
untouched). -/
theorem invalidate_spec (fm fn : String) (ik : Bool) (st : SFState)
    (args : List PyObj) (kwargs : List (String × PyObj)) :
    ((invalidate fm fn ik st args kwargs).1
        = (lookupKey st.cache (make_key fm fn ik args kwargs)).isSome)
  ∧ (invalidate fm fn ik st args kwargs).2.cache
      = dictDelete st.cache (make_key fm fn ik args kwargs)
  ∧ lookupKey (invalidate fm fn ik st args kwargs).2.cache
      (make_key fm fn ik args kwargs) = none
  ∧ (∀ k2, k2 ≠ make_key fm fn ik args kwargs →
      lookupKey (invalidate fm fn ik st args kwargs).2.cache k2
        = lookupKey st.cache k2)
  ∧ (invalidate fm fn ik st args kwargs).2.execs = st.execs
  ∧ (invalidate fm fn ik st args kwargs).2.nextHandle = st.nextHandle := by
  cases hl : lookupKey st.cache (make_key fm fn ik args kwargs) with
  | none =>
      have hdel : dictDelete st.cache (make_key fm fn ik args kwargs) = st.cache :=
        dictDelete_of_lookup_none _ _ hl
      exact ⟨by simp [invalidate, hl], by simp [invalidate, hl, hdel],
        by simp [invalidate, hl, hl], fun k2 _ => by simp [invalidate, hl],
        by simp [invalidate, hl], by simp [invalidate, hl]⟩
  | some t =>
      exact ⟨by simp [invalidate, hl], by simp [invalidate, hl],
        by simp [invalidate, hl, lookupKey_dictDelete_self],
        fun k2 h2 => by
          simp only [invalidate, hl]
          rw [lookupKey_dictDelete_other st.cache _ k2 h2],
        by simp [invalidate, hl], by simp [invalidate, hl]⟩

/-- C6 witness: on the empty state invalidation misses, reports `false`,
and leaves unrelated keys alone; after one call it reports `true`. -/
theorem invalidate_spec_witness :
    (invalidate "m" "f" false SFState.empty [] []).1 = false
  ∧ lookupKey (invalidate "m" "f" false SFState.empty [] []).2.cache "zzz"
      = lookupKey SFState.empty.cache "zzz"
  ∧ (invalidate "m" "f" false (invoke "m" "f" false SFState.empty [] []).2 [] []).1
      = true := by
  refine ⟨?_, ?_, ?_⟩
  · have h := (invalidate_spec "m" "f" false SFState.empty [] []).1
    simp only [h]
    decide
  · exact (invalidate_spec "m" "f" false SFState.empty [] []).2.2.2.1 "zzz" (by decide)
  · have h := (invalidate_spec "m" "f" false
      (invoke "m" "f" false SFState.empty [] []).2 [] []).1
    simp only [h]
    decide

/-- C7: `_invalidate_containing s` removes exactly the entries whose key
contains `s` as a literal substring: the resulting mapping is the
original one filtered to the keys not containing `s`, so every matching
entry is gone and every non-matching entry is retained unchanged, in
order. -/
theorem invalidateContaining_spec (st : SFState) (s : String) :
    (invalidateContaining st s).cache
      = st.cache.filter (fun p => !(containsSubstr p.1 s)) := by
  unfold invalidateContaining
  simp only
  rw [foldl_dictDelete_eq_filter]
  apply List.filter_congr
  intro p hp
  have hmem : p.1 ∈ st.cache.map (fun q => q.1) := List.mem_map_of_mem _ hp
  by_cases hc : containsSubstr p.1 s = true
  · simp [List.mem_filter, hmem, hc]
  · simp only [Bool.not_eq_true] at hc
    simp [List.mem_filter, hc]

/-- C2 counterexample: two distinct fresh instances of one class without
a custom `__repr__` derive the same key — `_true_repr`'s fallback is the
class tag `<m.C>`, not an address — so the second call does hit the
cache (no second producer execution), refuting identity-based keying. -/
theorem true_repr_identity_cex :
    objA ≠ objB
  ∧ true_repr objA = true_repr objB
  ∧ make_key "mod" "f" false [objA] [] = make_key "mod" "f" false [objB] []
  ∧ (invoke "mod" "f" false (invoke "mod" "f" false SFState.empty [objA] []).2
      [objB] []).2.execs = 1 := by decide

/-- C2 amended: an argument without a custom textual representation
contributes the class-based component `<module.ClassName>` (no address),
so any two such arguments of classes with equal module and name — in
particular two distinct fresh instances of one class — contribute equal
key components, and calls differing only in such an argument derive
equal keys and do hit the cache. -/
theorem true_repr_class_keyed (a b : PyObj) (fm fn : String) (ik : Bool)
    (pre post : List PyObj) (kwargs : List (String × PyObj))
    (ha : a.hasCustomRepr = false) (hb : b.hasCustomRepr = false)
    (hm : a.clsModule = b.clsModule) (hn : a.clsName = b.clsName) :
    true_repr a = "<" ++ a.clsModule ++ "." ++ a.clsName ++ ">"
  ∧ true_repr a = true_repr b
  ∧ make_key fm fn ik (pre ++ a :: post) kwargs
      = make_key fm fn ik (pre ++ b :: post) kwargs := by
  have h1 : true_repr a = "<" ++ a.clsModule ++ "." ++ a.clsName ++ ">" := by
    simp [true_repr, ha]
  have h2 : true_repr a = true_repr b := by
    simp [true_repr, ha, hb, hm, hn]
  exact ⟨h1, h2, by simp [make_key, keyComponents, h2]⟩

/-- C2 amended witness: the two fresh instances `objA`, `objB` above. -/
theorem true_repr_class_keyed_witness :
    make_key "mod" "g" false [objA] [] = make_key "mod" "g" false [objB] [] :=
  (true_repr_class_keyed objA objB "mod" "g" false [] [] [] rfl rfl rfl rfl).2.2

/-- C4 counterexample: the name `conn` from the spec's own example is not
in the hard-coded bypass set, so `invoke(1, conn=A)` and
`invoke(1, conn=B)` derive different keys and do not coalesce — a second
producer execution starts.  No construction parameter can change the
bypass set: the only knob, `ignore_kwargs`, drops every named argument. -/
theorem ignored_names_cex :
    make_key "mod" "f" false [intOne] [("conn", connA)]
      ≠ make_key "mod" "f" false [intOne] [("conn", connB)]
  ∧ (invoke "mod" "f" false
      (invoke "mod" "f" false SFState.empty [intOne] [("conn", connA)]).2
      [intOne] [("conn", connB)]).2.execs = 2 := by decide

/-- C4 amended: the skipped names are the hard-coded set
`{connection, pool}`, fixed in `_make_key` rather than configurable at
construction: calls differing only in the value bound to such a name
derive the same key; every named argument with any other name
contributes both its name's and its value's representation to the key
components; and the only construction-time knob, `ignore_kwargs = True`,
skips all named arguments whatsoever. -/
theorem ignored_names_hardcoded (fm fn : String) (args : List PyObj)
    (k : String) (v1 v2 : PyObj) (kw1 kw2 : List (String × PyObj))
    (hk : k ∈ ignoredKwargNames) :
    make_key fm fn false args (kw1 ++ (k, v1) :: kw2)
      = make_key fm fn false args (kw1 ++ (k, v2) :: kw2)
  ∧ (∀ k2 v, k2 ∉ ignoredKwargNames →
      strRepr k2 ∈ keyComponents fm fn false args (kw1 ++ (k2, v) :: kw2)
        ∧ true_repr v ∈ keyComponents fm fn false args (kw1 ++ (k2, v) :: kw2))
  ∧ (∀ kwargs kwargs2 : List (String × PyObj),
      make_key fm fn true args kwargs = make_key fm fn true args kwargs2) := by
  refine ⟨?_, ?_, ?_⟩
  · simp [make_key, keyComponents, List.filter_append, List.filter_cons, hk]
  · intro k2 v hk2
    have hfilter : (k2, v) ∈ (kw1 ++ (k2, v) :: kw2).filter
        (fun kv => !(ignoredKwargNames.contains kv.1)) := by
      rw [List.mem_filter]
      exact ⟨by simp, by simp [hk2]⟩
    have hflat : ∀ s2 ∈ [strRepr k2, true_repr v],
        s2 ∈ keyComponents fm fn false args (kw1 ++ (k2, v) :: kw2) := by
      intro s2 hs2
      unfold keyComponents
      simp only [Bool.false_eq_true, if_false]
      exact List.mem_append_right _ (List.mem_flatMap.mpr ⟨(k2, v), hfilter, hs2⟩)
    exact ⟨hflat _ (by simp), hflat _ (by simp)⟩
  · intro kwargs kwargs2
    simp [make_key, keyComponents]

/-- C4 amended witness: `connection` is skipped (key equality across two
different connection objects) and a non-bypass name `x` does contribute
its representation. -/
theorem ignored_names_hardcoded_witness :
    make_key "mod" "f" false [intOne] [("connection", connA)]
      = make_key "mod" "f" false [intOne] [("connection", connB)]
  ∧ strRepr "x" ∈ keyComponents "mod" "f" false [intOne] [("x", connA)] := by
  refine ⟨?_, ?_⟩
  · exact (ignored_names_hardcoded "mod" "f" [intOne] "connection" connA connB
      [] [] (by decide)).1
  · exact ((ignored_names_hardcoded "mod" "f" [intOne] "connection" connA connB
      [] [] (by decide)).2.1 "x" connA (by decide)).1

theorem verifyCacheIntegrity_eq_filter {α : Type} (c : ExpiringCache α) (now : ℚ)
    (hnd : (c.table.map Prod.fst).Nodup) :
    (verifyCacheIntegrity c now).table
      = c.table.filter (fun e => decide (¬ (now > e.2.2 + c.ttl))) := by
  unfold verifyCacheIntegrity
  simp only
  rw [foldl_dictDelete_eq_filter]
  apply List.filter_congr
  intro e he
  have hmem : e.1 ∈ expiredKeys c now ↔ (now > e.2.2 + c.ttl) := by
    unfold expiredKeys
    simp only [List.mem_map, List.mem_filter, decide_eq_true_eq]
    constructor
    · rintro ⟨q, ⟨hq, hqe⟩, hfst⟩
      have hqeq : q = e := List.inj_on_of_nodup_map hnd hq he hfst
      rwa [hqeq] at hqe
    · intro hx
      exact ⟨e, ⟨he, hx⟩, rfl⟩
  rw [decide_eq_decide]
  exact not_congr hmem

/-- C3 amended: lazy expiry holds for containment checks and indexed
reads, but not for writes or for `get`.  With unique keys: a containment
check succeeds exactly for an entry with `now - insertedAt ≤ ttl`; after
a containment check or an indexed read the mapping holds exactly the
entries with `now - insertedAt ≤ ttl` (all expired ones purged); an
indexed read whose key has only expired entries misses; a write stores
the pair without purging anything; and `get` answers from the raw dict,
ignoring expiry. -/
theorem expiring_lazy_expiry (α : Type) (c : ExpiringCache α) (now : ℚ) (k : String)
    (v0 : α) (hnd : (c.table.map Prod.fst).Nodup) :
    ((c.containsKey now k).1 = true ↔
        ∃ v t, (k, (v, t)) ∈ c.table ∧ ¬ (now - t > c.ttl))
  ∧ (∀ e ∈ (c.containsKey now k).2.table, ¬ (now - e.2.2 > c.ttl))
  ∧ (∀ e, e ∈ (c.getItem now k).2.table ↔ e ∈ c.table ∧ ¬ (now - e.2.2 > c.ttl))
  ∧ ((∀ v t, (k, (v, t)) ∈ c.table → now - t > c.ttl) → (c.getItem now k).1 = none)
  ∧ (c.setItem now k v0).table = dictSet c.table k (v0, now)
  ∧ (∀ v t, lookupKey c.table k = some (v, t) → c.get k = some v) := by
  have hverify := verifyCacheIntegrity_eq_filter c now hnd
  have hiff : ∀ t : ℚ, (now - t > c.ttl) ↔ (now > t + c.ttl) := fun t => by
    constructor <;> intro h <;> linarith
  refine ⟨?_, ?_, ?_, ?_, rfl, ?_⟩
  · unfold ExpiringCache.containsKey
    simp only [hverify, List.any_eq_true, List.mem_filter, decide_eq_true_eq]
    constructor
    · rintro ⟨p, ⟨hp, hlive⟩, hfst⟩
      refine ⟨p.2.1, p.2.2, ?_, ?_⟩
      · have hpe : (k, (p.2.1, p.2.2)) = p := by
          rw [← hfst]
        rwa [hpe]
      · rw [hiff p.2.2]
        exact hlive
    · rintro ⟨v, t, hvt, hlive⟩
      exact ⟨(k, (v, t)), ⟨hvt, (not_congr (hiff t)).mp hlive⟩, rfl⟩
  · intro e he
    unfold ExpiringCache.containsKey at he
    simp only [hverify, List.mem_filter, decide_eq_true_eq] at he
    rw [hiff e.2.2]
    exact he.2
  · intro e
    unfold ExpiringCache.getItem
    simp only [hverify, List.mem_filter, decide_eq_true_eq]
    rw [hiff e.2.2]
  · intro hall
    unfold ExpiringCache.getItem
    simp only [hverify]
    have hnone : lookupKey (c.table.filter
        (fun e => decide (¬ (now > e.2.2 + c.ttl)))) k = none := by
      rw [lookupKey_eq_none_iff]
      intro p hp
      rw [List.mem_filter, decide_eq_true_eq] at hp
      intro hfst
      apply hp.2
      have hpe : (k, (p.2.1, p.2.2)) = p := by rw [← hfst]
      have := hall p.2.1 p.2.2 (by rw [hpe]; exact hp.1)
      exact (hiff p.2.2).mp this
    rw [hnone]
    rfl
  · intro v t h
    unfold ExpiringCache.get
    rw [h]
    rfl

/-- C3 amended witness: ttl 10, an entry inserted at 0 is still found by
a containment check at 3. -/
theorem expiring_lazy_expiry_witness :
    (((ExpiringCache.init Nat 10).setItem 0 "a" 7).containsKey 3 "a").1 = true :=
  ((expiring_lazy_expiry Nat ((ExpiringCache.init Nat 10).setItem 0 "a" 7) 3 "a" 0
      (by simp [ExpiringCache.init, ExpiringCache.setItem, dictSet])).1).mpr
    ⟨7, 0, by simp [ExpiringCache.init, ExpiringCache.setItem, dictSet],
      by norm_num [ExpiringCache.init, ExpiringCache.setItem]⟩

/-- C3 counterexample: ttl 1; write `a` at time 0, then write `b` at
time 2.  The write purges nothing, so the entry for `a` — whose age 2
exceeds the ttl — is still in the backing mapping afterwards; and `get`,
a read, returns the expired value instead of missing. -/
theorem expiring_write_no_purge_cex :
    ("a", (7, (0 : ℚ)))
        ∈ (((ExpiringCache.init Nat 1).setItem 0 "a" 7).setItem 2 "b" 8).table
  ∧ ((2 : ℚ) - 0 > (((ExpiringCache.init Nat 1).setItem 0 "a" 7).setItem 2 "b" 8).ttl)
  ∧ ((ExpiringCache.init Nat 1).setItem 0 "a" 7).get "a" = some 7 := by
  refine ⟨?_, ?_, ?_⟩
  · simp [ExpiringCache.init, ExpiringCache.setItem, dictSet]
  · norm_num [ExpiringCache.init, ExpiringCache.setItem]
  · simp [ExpiringCache.init, ExpiringCache.setItem, ExpiringCache.get, dictSet,
      lookupKey]

/-- C8: `ExpiringCache.__init__` performs no validation, so the timed
strategy with a non-positive ttl constructs successfully instead of
failing fast; the resulting cache silently misbehaves at call time —
an entry written at 0 is already gone for the containment check and the
read at time 1. -/
theorem timed_misconfiguration_accepted :
    (ExpiringCache.init Nat 0).ttl = 0
  ∧ (((ExpiringCache.init Nat 0).setItem 0 "a" 42).containsKey 1 "a").1 = false
  ∧ (((ExpiringCache.init Nat 0).setItem 0 "a" 42).getItem 1 "a").1 = none := by
  refine ⟨rfl, ?_, ?_⟩ <;>
    simp [ExpiringCache.init, ExpiringCache.setItem, ExpiringCache.containsKey,
      ExpiringCache.getItem, verifyCacheIntegrity, expiredKeys, dictSet,
      dictDelete, lookupKey]

/-- C9: `get_stats` reports the constant `(0, 0)` for the raw and timed
strategies whatever state they are in (however many hits and misses the
ghost history records), while for the LRU strategy it delegates to the
underlying table's cumulative hit/miss counters. -/
theorem stats_zero_asymmetry :
    (∀ st : SFState, statsRaw st = (0, 0))
  ∧ (∀ (α : Type) (c : ExpiringCache α), statsTimed c = (0, 0))
  ∧ (∀ t : LRUTable, statsLru t = (t.hits, t.misses)) :=
  ⟨fun _ => rfl, fun _ _ => rfl, fun _ => rfl⟩

theorem insertAll_length {α : Type} (now : ℚ) (v : α) (ks : List String) :
    ∀ (c : ExpiringCache α), ks.Nodup →
      (∀ k ∈ ks, lookupKey c.table k = none) →
      (insertAll c now v ks).table.length = c.table.length + ks.length := by
  induction ks with
  | nil => intro c _ _; simp [insertAll]
  | cons k ks ih =>
      intro c hnd habs
      have hk : lookupKey c.table k = none := habs k (List.mem_cons_self _ _)
      have hset : (c.setItem now k v).table = c.table ++ [(k, (v, now))] := by
        unfold ExpiringCache.setItem
        simp [dictSet_of_lookup_none _ _ _ hk]
      have habs2 : ∀ k2 ∈ ks, lookupKey (c.setItem now k v).table k2 = none := by
        intro k2 hk2
        rw [hset, lookupKey_append _ _ _ (habs k2 (List.mem_cons_of_mem _ hk2))]
        have hne : ¬ k = k2 := fun h => (List.nodup_cons.mp hnd).1 (h ▸ hk2)
        simp [lookupKey, hne]
      rw [insertAll, ih _ (List.nodup_cons.mp hnd).2 habs2, hset]
      simp
      omega

/-- C10: the timed strategy's single `maxsize` parameter is the ttl in
seconds (`ExpiringCache(maxsize)`), 128 in the default configuration,
and no capacity bound exists: inserting any number of distinct keys
grows the table by exactly that number; with the default configuration
an entry inserted at `t0` passes the containment check at `now` exactly
while `now - t0 ≤ 128`. -/
theorem timed_maxsize_is_ttl (q now t0 : ℚ) (v : Nat) (ks : List String)
    (hnd : ks.Nodup) :
    (timedCacheInit Nat q).ttl = q
  ∧ (timedCacheInit Nat (cacheDefaultMaxsize : ℚ)).ttl = 128
  ∧ (insertAll (timedCacheInit Nat q) now v ks).table.length = ks.length
  ∧ ((((timedCacheInit Nat 128).setItem t0 "k" v).containsKey now "k").1 = true
      ↔ now - t0 ≤ 128) := by
  refine ⟨rfl, by norm_num [timedCacheInit, ExpiringCache.init, cacheDefaultMaxsize],
    ?_, ?_⟩
  · have h := insertAll_length now v ks (timedCacheInit Nat q) hnd
      (by intro k _; rfl)
    simpa [timedCacheInit, ExpiringCache.init] using h
  · by_cases h : now > t0 + 128
    · simp [timedCacheInit, ExpiringCache.init, ExpiringCache.setItem,
        ExpiringCache.containsKey, verifyCacheIntegrity, expiredKeys, dictSet,
        dictDelete, lookupKey, h]
      linarith
    · simp [timedCacheInit, ExpiringCache.init, ExpiringCache.setItem,
        ExpiringCache.containsKey, verifyCacheIntegrity, expiredKeys, dictSet,
        dictDelete, lookupKey, h]
      linarith

/-- C10 witness: ttl 5, three distinct keys inserted, table length 3. -/
theorem timed_maxsize_is_ttl_witness :
    (timedCacheInit Nat 5).ttl = 5
  ∧ (insertAll (timedCacheInit Nat 5) 0 0 ["a", "b", "c"]).table.length = 3 := by
  have h := timed_maxsize_is_ttl 5 0 0 0 ["a", "b", "c"] (by simp)
  exact ⟨h.1, by simpa using h.2.2.1⟩

end BotCache
